import Mathlib

namespace Indoorapp

attribute [local semireducible] Rat.mul Rat.inv Rat.add Rat.sub

/-- Round to the nearest integer, ties to even, mirroring Python 3 `round`
with a single argument, as used in `pm25_to_aqi` (`int(round(...))`). -/
def roundHalfEven (q : ℚ) : ℤ :=
  if q - (⌊q⌋ : ℚ) < 1/2 then ⌊q⌋
  else if 1/2 < q - (⌊q⌋ : ℚ) then ⌊q⌋ + 1
  else if ⌊q⌋ % 2 = 0 then ⌊q⌋ else ⌊q⌋ + 1

/-- The PM2.5 breakpoint table `bps` of `pm25_to_aqi` in src/Indoorapp.py:
entries are `(Clow, Chigh, Ilow, Ihigh)`. -/
def bps : List (ℚ × ℚ × ℤ × ℤ) :=
  [ (0, 12, 0, 50),
    (121/10, 354/10, 51, 100),
    (355/10, 554/10, 101, 150),
    (555/10, 1504/10, 151, 200),
    (1505/10, 2504/10, 201, 300),
    (2505/10, 3504/10, 301, 400),
    (3505/10, 5004/10, 401, 500) ]

/-- The linear-interpolation body of the band loop in `pm25_to_aqi`:
`int(round(((Ihigh - Ilow)/(Chigh - Clow))*(pm - Clow) + Ilow))`. -/
def bandScore (b : ℚ × ℚ × ℤ × ℤ) (pm : ℚ) : ℤ :=
  roundHalfEven ((((b.2.2.2 : ℚ) - (b.2.2.1 : ℚ)) / (b.2.1 - b.1)) * (pm - b.1) + (b.2.2.1 : ℚ))

/-- The `for (Clow, Chigh, Ilow, Ihigh) in bps` loop of `pm25_to_aqi`:
the first band whose closed interval contains `pm` is interpolated;
falling out of the loop returns 500. -/
def aqiLoop (pm : ℚ) : List (ℚ × ℚ × ℤ × ℤ) → ℤ
  | [] => 500
  | b :: rest => if b.1 ≤ pm ∧ pm ≤ b.2.1 then bandScore b pm else aqiLoop pm rest

/-- `pm25_to_aqi` from src/Indoorapp.py: `None` maps to `None`, otherwise
the band loop runs over `bps`. -/
def pm25_to_aqi : Option ℚ → Option ℤ
  | none => none
  | some pm => some (aqiLoop pm bps)

/-- `aqi_category` from src/Indoorapp.py: `None` maps to ("Unknown", gray),
otherwise six thresholds are tried in ascending order. -/
def aqi_category : Option ℤ → String × String
  | none => ("Unknown", "#9AA0A6")
  | some aqi =>
    if aqi ≤ 50 then ("Good", "#00E400")
    else if aqi ≤ 100 then ("Moderate", "#FFFF00")
    else if aqi ≤ 150 then ("Unhealthy for Sensitive Groups", "#FF7E00")
    else if aqi ≤ 200 then ("Unhealthy", "#FF0000")
    else if aqi ≤ 300 then ("Very Unhealthy", "#8F3F97")
    else ("Hazardous", "#7E0023")

/-- The `tips` dictionary of `health_tip` in src/Indoorapp.py,
as an association list in source order. -/
def tips : List (String × String) :=
  [ ("Good", "Air quality is good. Keep windows open when possible."),
    ("Moderate", "Sensitive groups should limit outdoor activity."),
    ("Unhealthy for Sensitive Groups", "Use air purifier and avoid outdoor activity."),
    ("Unhealthy", "Limit outdoor exposure."),
    ("Very Unhealthy", "Stay indoors and use air purifier."),
    ("Hazardous", "Avoid outdoor activities completely.") ]

/-- `health_tip` from src/Indoorapp.py: `tips.get(cat, "Monitor conditions and stay safe.")`. -/
def health_tip (cat : String) : String :=
  (tips.lookup cat).getD "Monitor conditions and stay safe."

/-- The Boolean band-membership test of the loop guard
`Clow <= pm <= Chigh`. -/
def bandMatch (pm : ℚ) (b : ℚ × ℚ × ℤ × ℤ) : Bool :=
  decide (b.1 ≤ pm) && decide (pm ≤ b.2.1)

theorem roundHalfEven_eq_floor_or (q : ℚ) :
    roundHalfEven q = ⌊q⌋ ∨ roundHalfEven q = ⌊q⌋ + 1 := by
  unfold roundHalfEven
  split_ifs <;> simp

theorem floor_le_roundHalfEven (q : ℚ) : ⌊q⌋ ≤ roundHalfEven q := by
  rcases roundHalfEven_eq_floor_or q with h | h <;> omega

theorem roundHalfEven_le_floor_add_one (q : ℚ) : roundHalfEven q ≤ ⌊q⌋ + 1 := by
  rcases roundHalfEven_eq_floor_or q with h | h <;> omega

theorem le_roundHalfEven {k : ℤ} {q : ℚ} (h : (k : ℚ) ≤ q) : k ≤ roundHalfEven q :=
  le_trans (Int.le_floor.2 h) (floor_le_roundHalfEven q)

theorem roundHalfEven_le {k : ℤ} {q : ℚ} (h : q ≤ (k : ℚ)) : roundHalfEven q ≤ k := by
  have hfl : ⌊q⌋ ≤ k := by
    have := Int.floor_mono h
    rwa [Int.floor_intCast] at this
  unfold roundHalfEven
  split_ifs with h1 h2 h3
  · exact hfl
  · have hlt : (⌊q⌋ : ℚ) < q := by linarith
    have : (⌊q⌋ : ℚ) < (k : ℚ) := lt_of_lt_of_le hlt h
    have : ⌊q⌋ < k := by exact_mod_cast this
    omega
  · exact hfl
  · have hlt : (⌊q⌋ : ℚ) < q := by linarith
    have : (⌊q⌋ : ℚ) < (k : ℚ) := lt_of_lt_of_le hlt h
    have : ⌊q⌋ < k := by exact_mod_cast this
    omega

theorem roundHalfEven_mono {q1 q2 : ℚ} (h : q1 ≤ q2) :
    roundHalfEven q1 ≤ roundHalfEven q2 := by
  rcases eq_or_lt_of_le (Int.floor_mono h) with hf | hf
  · unfold roundHalfEven
    rw [← hf]
    split_ifs <;> first | omega | linarith
  · calc roundHalfEven q1 ≤ ⌊q1⌋ + 1 := roundHalfEven_le_floor_add_one q1
    _ ≤ ⌊q2⌋ := by omega
    _ ≤ roundHalfEven q2 := floor_le_roundHalfEven q2

/-- Each table row has a nonempty concentration interval, a nondecreasing
index interval, and index bounds inside [0, 500]. -/
theorem bps_entries : ∀ b ∈ bps,
    b.1 < b.2.1 ∧ b.2.2.1 ≤ b.2.2.2 ∧ 0 ≤ b.2.2.1 ∧ b.2.2.2 ≤ 500 := by decide

/-- The table rows are in strictly ascending concentration order and the
index ranges do not decrease from one row to the next. -/
theorem bps_sorted : bps.Pairwise (fun a b => a.2.1 < b.1 ∧ a.2.2.2 ≤ b.2.2.1) := by decide

theorem bandScore_bounds {b : ℚ × ℚ × ℤ × ℤ} (hb : b ∈ bps) {pm : ℚ}
    (h1 : b.1 ≤ pm) (h2 : pm ≤ b.2.1) :
    b.2.2.1 ≤ bandScore b pm ∧ bandScore b pm ≤ b.2.2.2 := by
  obtain ⟨hlt, hIl, -, -⟩ := bps_entries b hb
  have hpos : (0:ℚ) < b.2.1 - b.1 := by linarith
  have hIlq : (b.2.2.1 : ℚ) ≤ (b.2.2.2 : ℚ) := Int.cast_le.2 hIl
  have hslope : (0:ℚ) ≤ ((b.2.2.2 : ℚ) - (b.2.2.1 : ℚ)) / (b.2.1 - b.1) :=
    div_nonneg (by linarith) hpos.le
  have hcancel : ((b.2.2.2 : ℚ) - (b.2.2.1 : ℚ)) / (b.2.1 - b.1) * (b.2.1 - b.1)
      = (b.2.2.2 : ℚ) - (b.2.2.1 : ℚ) := div_mul_cancel₀ _ hpos.ne'
  have hmul1 : (0:ℚ) ≤ ((b.2.2.2 : ℚ) - (b.2.2.1 : ℚ)) / (b.2.1 - b.1) * (pm - b.1) :=
    mul_nonneg hslope (by linarith)
  have hmul2 : ((b.2.2.2 : ℚ) - (b.2.2.1 : ℚ)) / (b.2.1 - b.1) * (pm - b.1)
      ≤ ((b.2.2.2 : ℚ) - (b.2.2.1 : ℚ)) / (b.2.1 - b.1) * (b.2.1 - b.1) :=
    mul_le_mul_of_nonneg_left (by linarith) hslope
  unfold bandScore
  exact ⟨le_roundHalfEven (by linarith), roundHalfEven_le (by linarith)⟩

theorem bandScore_mono {b : ℚ × ℚ × ℤ × ℤ} (hb : b ∈ bps) {c1 c2 : ℚ} (h : c1 ≤ c2) :
    bandScore b c1 ≤ bandScore b c2 := by
  obtain ⟨hlt, hIl, -, -⟩ := bps_entries b hb
  have hpos : (0:ℚ) < b.2.1 - b.1 := by linarith
  have hIlq : (b.2.2.1 : ℚ) ≤ (b.2.2.2 : ℚ) := Int.cast_le.2 hIl
  have hslope : (0:ℚ) ≤ ((b.2.2.2 : ℚ) - (b.2.2.1 : ℚ)) / (b.2.1 - b.1) :=
    div_nonneg (by linarith) hpos.le
  have hmul : ((b.2.2.2 : ℚ) - (b.2.2.1 : ℚ)) / (b.2.1 - b.1) * (c1 - b.1)
      ≤ ((b.2.2.2 : ℚ) - (b.2.2.1 : ℚ)) / (b.2.1 - b.1) * (c2 - b.1) :=
    mul_le_mul_of_nonneg_left (by linarith) hslope
  unfold bandScore
  exact roundHalfEven_mono (by linarith)

theorem aqiLoop_eq_500 {pm : ℚ} :
    ∀ l : List (ℚ × ℚ × ℤ × ℤ), (∀ b ∈ l, ¬(b.1 ≤ pm ∧ pm ≤ b.2.1)) → aqiLoop pm l = 500
  | [], _ => rfl
  | b :: rest, h => by
    have hb := h b (List.mem_cons_self b rest)
    simp only [aqiLoop, if_neg hb]
    exact aqiLoop_eq_500 rest fun x hx => h x (List.mem_cons_of_mem b hx)

theorem aqiLoop_cases (pm : ℚ) :
    ∀ l : List (ℚ × ℚ × ℤ × ℤ),
      (∃ b ∈ l, (b.1 ≤ pm ∧ pm ≤ b.2.1) ∧ aqiLoop pm l = bandScore b pm) ∨ aqiLoop pm l = 500
  | [] => Or.inr rfl
  | b :: rest => by
    by_cases hb : b.1 ≤ pm ∧ pm ≤ b.2.1
    · exact Or.inl ⟨b, List.mem_cons_self b rest, hb, by simp only [aqiLoop, if_pos hb]⟩
    · rcases aqiLoop_cases pm rest with ⟨c, hc, hcc, he⟩ | he
      · refine Or.inl ⟨c, List.mem_cons_of_mem b hc, hcc, ?_⟩
        simp only [aqiLoop, if_neg hb]
        exact he
      · refine Or.inr ?_
        simp only [aqiLoop, if_neg hb]
        exact he

theorem aqiLoop_find? {pm : ℚ} :
    ∀ {l : List (ℚ × ℚ × ℤ × ℤ)} {b}, l.find? (bandMatch pm) = some b →
      aqiLoop pm l = bandScore b pm := by
  intro l
  induction l with
  | nil => intro b h; simp [List.find?] at h
  | cons a rest ih =>
    intro b h
    by_cases ha : bandMatch pm a = true
    · rw [List.find?_cons_of_pos _ ha] at h
      have hab : a = b := by injection h
      subst hab
      have hc : a.1 ≤ pm ∧ pm ≤ a.2.1 := by
        simpa [bandMatch] using ha
      simp only [aqiLoop, if_pos hc]
    · rw [List.find?_cons_of_neg _ ha] at h
      have hc : ¬(a.1 ≤ pm ∧ pm ≤ a.2.1) := by
        simpa [bandMatch] using ha
      simp only [aqiLoop, if_neg hc]
      exact ih h

theorem aqiLoop_eq_of_mem {pm : ℚ} :
    ∀ {l : List (ℚ × ℚ × ℤ × ℤ)}, l.Pairwise (fun a b => a.2.1 < b.1 ∧ a.2.2.2 ≤ b.2.2.1) →
      ∀ {b}, b ∈ l → b.1 ≤ pm → pm ≤ b.2.1 → aqiLoop pm l = bandScore b pm := by
  intro l
  induction l with
  | nil => intro _ b hb; exact absurd hb (List.not_mem_nil b)
  | cons a rest ih =>
    intro hl b hb h1 h2
    rw [List.pairwise_cons] at hl
    rcases List.mem_cons.1 hb with rfl | hb
    · have hc : b.1 ≤ pm ∧ pm ≤ b.2.1 := ⟨h1, h2⟩
      simp only [aqiLoop, if_pos hc]
    · have hgap : a.2.1 < b.1 := (hl.1 b hb).1
      have hc : ¬(a.1 ≤ pm ∧ pm ≤ a.2.1) := fun hx => absurd hx.2 (by linarith)
      simp only [aqiLoop, if_neg hc]
      exact ih hl.2 hb h1 h2

/-- Every row's high concentration bound is at most 500.4, the last row's
high bound. -/
theorem bps_high_le : ∀ b ∈ bps, b.2.1 ≤ (5004:ℚ)/10 := by decide

/-- Every row's low concentration bound is non-negative. -/
theorem bps_low_nonneg : ∀ b ∈ bps, (0:ℚ) ≤ b.1 := by decide

/-- Above 500.4 every loop guard fails, so the loop falls through to 500. -/
theorem aqiLoop_above_table {c : ℚ} (h : (5004:ℚ)/10 < c) : aqiLoop c bps = 500 :=
  aqiLoop_eq_500 bps fun b hb hx =>
    absurd hx.2 (not_le.2 (lt_of_le_of_lt (bps_high_le b hb) h))

/-- An association-list lookup misses when no key matches. -/
theorem lookup_eq_none_of_no_key {α β : Type} [BEq α] [LawfulBEq α] {cat : α} :
    ∀ l : List (α × β), (∀ p ∈ l, p.1 ≠ cat) → l.lookup cat = none
  | [], _ => rfl
  | (k, v) :: rest, h => by
    have hk : (cat == k) = false := by
      have hne := h (k, v) (List.mem_cons_self _ _)
      exact beq_eq_false_iff_ne.2 fun he => hne he.symm
    simp only [List.lookup, hk]
    exact lookup_eq_none_of_no_key rest fun p hp => h p (List.mem_cons_of_mem _ hp)

/-- C1: for a concentration `pm` contained in some breakpoint band, with
`b = (Clow, Chigh, Ilow, Ihigh)` the first such band of `bps` in ascending
order, `pm25_to_aqi` returns
`round(((Ihigh - Ilow)/(Chigh - Clow)) * (pm - Clow) + Ilow)` with
round-to-nearest, ties to even. -/
theorem C1_first_band_interpolation (pm : ℚ) (b : ℚ × ℚ × ℤ × ℤ)
    (h : bps.find? (bandMatch pm) = some b) :
    pm25_to_aqi (some pm) =
      some (roundHalfEven ((((b.2.2.2 : ℚ) - (b.2.2.1 : ℚ)) / (b.2.1 - b.1)) * (pm - b.1)
        + (b.2.2.1 : ℚ))) :=
  congrArg some (aqiLoop_find? h)

/-- Witness for C1: concentration 40 first matches the third band
(35.5, 55.4, 101, 150). -/
theorem C1_witness :
    bps.find? (bandMatch 40) = some (355/10, 554/10, 101, 150) ∧
    pm25_to_aqi (some 40) =
      some (roundHalfEven (((((150:ℤ) : ℚ) - ((101:ℤ) : ℚ)) / ((554:ℚ)/10 - (355:ℚ)/10))
        * ((40:ℚ) - (355:ℚ)/10) + ((101:ℤ) : ℚ))) :=
  ⟨by decide, C1_first_band_interpolation 40 (355/10, 554/10, 101, 150) (by decide)⟩

/-- C4: each band's bounds score exactly to its index bounds, and
0.0 ↦ 0, 12.0 ↦ 50, 12.1 ↦ 51, 500.4 ↦ 500. -/
theorem C4_boundary_exactness :
    (∀ b ∈ bps, pm25_to_aqi (some b.1) = some b.2.2.1 ∧
      pm25_to_aqi (some b.2.1) = some b.2.2.2) ∧
    pm25_to_aqi (some 0) = some 0 ∧ pm25_to_aqi (some 12) = some 50 ∧
    pm25_to_aqi (some (121/10)) = some 51 ∧ pm25_to_aqi (some (5004/10)) = some 500 := by
  decide

/-- Witness for C4 at the first band (0.0, 12.0, 0, 50). -/
theorem C4_witness :
    pm25_to_aqi (some 0) = some 0 ∧ pm25_to_aqi (some 12) = some 50 :=
  C4_boundary_exactness.1 (0, 12, 0, 50) (by decide)

/-- C5: every concentration strictly above 500.4 scores exactly 500. -/
theorem C5_ceiling_clamp (c : ℚ) (h : (5004:ℚ)/10 < c) :
    pm25_to_aqi (some c) = some 500 :=
  congrArg some (aqiLoop_above_table h)

/-- Witness for C5: 600 scores 500. -/
theorem C5_witness : pm25_to_aqi (some 600) = some 500 :=
  C5_ceiling_clamp 600 (by decide)

/-- C7: absent input flows through: `pm25_to_aqi None = None` and
`aqi_category None = ("Unknown", "#9AA0A6")`. -/
theorem C7_absent_inputs :
    pm25_to_aqi none = none ∧ aqi_category none = ("Unknown", "#9AA0A6") :=
  ⟨rfl, rfl⟩

/-- C9: end-to-end, concentration 40.0 scores 112, which is categorized
"Unhealthy for Sensitive Groups" with color "#FF7E00". -/
theorem C9_end_to_end :
    pm25_to_aqi (some 40) = some 112 ∧
    aqi_category (some 112) = ("Unhealthy for Sensitive Groups", "#FF7E00") := by
  decide

/-- C10: a concentration no band contains falls through the loop to 500;
negative values and values strictly inside the 0.1-wide gaps between
consecutive bands are such concentrations. -/
theorem C10_fallthrough :
    (∀ pm : ℚ, (∀ b ∈ bps, ¬(b.1 ≤ pm ∧ pm ≤ b.2.1)) → pm25_to_aqi (some pm) = some 500) ∧
    (∀ pm : ℚ, pm < 0 → ∀ b ∈ bps, ¬(b.1 ≤ pm ∧ pm ≤ b.2.1)) ∧
    (∀ pm : ℚ,
      (12 < pm ∧ pm < 121/10) ∨ (354/10 < pm ∧ pm < 355/10) ∨
      (554/10 < pm ∧ pm < 555/10) ∨ (1504/10 < pm ∧ pm < 1505/10) ∨
      (2504/10 < pm ∧ pm < 2505/10) ∨ (3504/10 < pm ∧ pm < 3505/10) →
      ∀ b ∈ bps, ¬(b.1 ≤ pm ∧ pm ≤ b.2.1)) := by
  refine ⟨fun pm h => congrArg some (aqiLoop_eq_500 bps h), fun pm h b hb hx => ?_,
    fun pm h b hb hx => ?_⟩
  · exact absurd hx.1 (not_le.2 (lt_of_lt_of_le h (bps_low_nonneg b hb)))
  · obtain ⟨hx1, hx2⟩ := hx
    simp only [bps] at hb
    fin_cases hb <;> norm_num at hx1 hx2 <;>
      rcases h with ⟨g1, g2⟩ | ⟨g1, g2⟩ | ⟨g1, g2⟩ | ⟨g1, g2⟩ | ⟨g1, g2⟩ | ⟨g1, g2⟩ <;>
      linarith

/-- Witness for C10: -1 and the gap value 12.05 both fall through to 500. -/
theorem C10_witness :
    pm25_to_aqi (some (-1)) = some 500 ∧ pm25_to_aqi (some (241/20)) = some 500 :=
  ⟨C10_fallthrough.1 (-1) (by decide), C10_fallthrough.1 (241/20) (by decide)⟩

/-- C2: every non-negative concentration maps to exactly one score, an
integer in [0, 500]; anything above 500.4 maps to the ceiling 500; and every
score in [0, 500] maps to exactly one category, drawn from the six fixed
category names. -/
theorem C2_invariants :
    (∀ c : ℚ, 0 ≤ c → ∃! s : ℤ, pm25_to_aqi (some c) = some s ∧ 0 ≤ s ∧ s ≤ 500) ∧
    (∀ c : ℚ, (5004:ℚ)/10 < c → pm25_to_aqi (some c) = some 500) ∧
    (∀ s : ℤ, 0 ≤ s → s ≤ 500 →
      ∃! p : String × String, aqi_category (some s) = p ∧
        p.1 ∈ ["Good", "Moderate", "Unhealthy for Sensitive Groups", "Unhealthy",
               "Very Unhealthy", "Hazardous"]) := by
  refine ⟨fun c _ => ?_, fun c hc => congrArg some (aqiLoop_above_table hc),
    fun s hs0 hs5 => ?_⟩
  · have hrange : 0 ≤ aqiLoop c bps ∧ aqiLoop c bps ≤ 500 := by
      rcases aqiLoop_cases c bps with ⟨b, hb, ⟨h1, h2⟩, he⟩ | he
      · obtain ⟨-, -, h0, h5⟩ := bps_entries b hb
        obtain ⟨hl, hu⟩ := bandScore_bounds hb h1 h2
        rw [he]
        omega
      · rw [he]
        omega
    exact ⟨aqiLoop c bps, ⟨rfl, hrange.1, hrange.2⟩,
      fun y hy => (Option.some.inj hy.1).symm⟩
  · refine ⟨aqi_category (some s), ⟨rfl, ?_⟩, fun y hy => hy.1.symm⟩
    simp only [aqi_category]
    split_ifs <;> simp

/-- Witness for C2 at concentration 40, at 501 for the ceiling, and at
score 112 for the category. -/
theorem C2_witness :
    (∃! s : ℤ, pm25_to_aqi (some 40) = some s ∧ 0 ≤ s ∧ s ≤ 500) ∧
    pm25_to_aqi (some 501) = some 500 ∧
    (∃! p : String × String, aqi_category (some 112) = p ∧
      p.1 ∈ ["Good", "Moderate", "Unhealthy for Sensitive Groups", "Unhealthy",
             "Very Unhealthy", "Hazardous"]) :=
  ⟨C2_invariants.1 40 (by decide), C2_invariants.2.1 501 (by decide),
    C2_invariants.2.2 112 (by decide) (by decide)⟩

/-- C3 as stated is false on the code: 12.05 and 13 are non-negative
concentrations with 12.05 < 13, yet 12.05 falls in the gap between the first
two bands and scores 500, while 13 scores 53, and 500 > 53. -/
theorem C3_counterexample :
    (0:ℚ) ≤ 241/20 ∧ (241:ℚ)/20 < 13 ∧
    pm25_to_aqi (some (241/20)) = some 500 ∧
    pm25_to_aqi (some 13) = some 53 ∧
    ¬(500 : ℤ) ≤ 53 := by
  refine ⟨by decide, by decide, by decide, by decide, by decide⟩

/-- C3 amended: monotonicity holds on the concentrations the breakpoint
table covers: if c1 < c2 and each is inclusively contained in some band,
the scores are non-decreasing. -/
theorem C3_monotone_on_bands (c1 c2 : ℚ)
    (h1 : ∃ b ∈ bps, b.1 ≤ c1 ∧ c1 ≤ b.2.1)
    (h2 : ∃ b ∈ bps, b.1 ≤ c2 ∧ c2 ≤ b.2.1)
    (hlt : c1 < c2) (s1 s2 : ℤ)
    (hs1 : pm25_to_aqi (some c1) = some s1)
    (hs2 : pm25_to_aqi (some c2) = some s2) :
    s1 ≤ s2 := by
  obtain ⟨b1, hb1, hc1l, hc1h⟩ := h1
  obtain ⟨b2, hb2, hc2l, hc2h⟩ := h2
  have e1 : s1 = bandScore b1 c1 := by
    rw [← aqiLoop_eq_of_mem bps_sorted hb1 hc1l hc1h]
    exact (Option.some.inj hs1).symm
  have e2 : s2 = bandScore b2 c2 := by
    rw [← aqiLoop_eq_of_mem bps_sorted hb2 hc2l hc2h]
    exact (Option.some.inj hs2).symm
  rw [e1, e2]
  by_cases hbb : b1 = b2
  · subst hbb
    exact bandScore_mono hb1 hlt.le
  · have hp : bps.Pairwise (fun x y => (x.2.1 < y.1 ∧ x.2.2.2 ≤ y.2.2.1) ∨
        (y.2.1 < x.1 ∧ y.2.2.2 ≤ x.2.2.1)) :=
      bps_sorted.imp Or.inl
    have hor := hp.forall (fun x y h => h.symm) hb1 hb2 hbb
    rcases hor with ⟨-, hle⟩ | ⟨hgt, -⟩
    · have u1 := (bandScore_bounds hb1 hc1l hc1h).2
      have u2 := (bandScore_bounds hb2 hc2l hc2h).1
      omega
    · exfalso
      linarith

/-- Witness for C3 amended at c1 = 10 (score 42) and c2 = 13 (score 53). -/
theorem C3_witness : (42 : ℤ) ≤ 53 :=
  C3_monotone_on_bands 10 13 (by decide) (by decide) (by decide) 42 53 (by decide) (by decide)

/-- C6: `aqi_category` is total over all integers with six thresholds in
ascending order, each with its fixed color hex value; scores above 500 fall
into "Hazardous". -/
theorem C6_category_thresholds :
    (∀ s : ℤ, s ≤ 50 → aqi_category (some s) = ("Good", "#00E400")) ∧
    (∀ s : ℤ, 50 < s → s ≤ 100 → aqi_category (some s) = ("Moderate", "#FFFF00")) ∧
    (∀ s : ℤ, 100 < s → s ≤ 150 →
      aqi_category (some s) = ("Unhealthy for Sensitive Groups", "#FF7E00")) ∧
    (∀ s : ℤ, 150 < s → s ≤ 200 → aqi_category (some s) = ("Unhealthy", "#FF0000")) ∧
    (∀ s : ℤ, 200 < s → s ≤ 300 → aqi_category (some s) = ("Very Unhealthy", "#8F3F97")) ∧
    (∀ s : ℤ, 300 < s → aqi_category (some s) = ("Hazardous", "#7E0023")) := by
  refine ⟨fun s h => ?_, fun s h h' => ?_, fun s h h' => ?_, fun s h h' => ?_,
    fun s h h' => ?_, fun s h => ?_⟩ <;>
    simp only [aqi_category] <;> split_ifs <;> first | rfl | omega

/-- Witness for C6 at scores 50, 51, 112, 200, 300 and 501. -/
theorem C6_witness :
    aqi_category (some 50) = ("Good", "#00E400") ∧
    aqi_category (some 51) = ("Moderate", "#FFFF00") ∧
    aqi_category (some 112) = ("Unhealthy for Sensitive Groups", "#FF7E00") ∧
    aqi_category (some 200) = ("Unhealthy", "#FF0000") ∧
    aqi_category (some 300) = ("Very Unhealthy", "#8F3F97") ∧
    aqi_category (some 501) = ("Hazardous", "#7E0023") :=
  ⟨C6_category_thresholds.1 50 (by decide),
    C6_category_thresholds.2.1 51 (by decide) (by decide),
    C6_category_thresholds.2.2.1 112 (by decide) (by decide),
    C6_category_thresholds.2.2.2.1 200 (by decide) (by decide),
    C6_category_thresholds.2.2.2.2.1 300 (by decide) (by decide),
    C6_category_thresholds.2.2.2.2.2 501 (by decide)⟩

/-- C8: `health_tip "Good"` is the fixed string, and any category not among
the keys of the `tips` table gets the generic fallback text. -/
theorem C8_health_tip :
    health_tip "Good" = "Air quality is good. Keep windows open when possible." ∧
    ∀ cat : String, (∀ p ∈ tips, p.1 ≠ cat) →
      health_tip cat = "Monitor conditions and stay safe." := by
  refine ⟨rfl, fun cat h => ?_⟩
  simp only [health_tip, lookup_eq_none_of_no_key tips h, Option.getD_none]

/-- Witness for C8 at the unmapped category "unrecognized". -/
theorem C8_witness : health_tip "unrecognized" = "Monitor conditions and stay safe." :=
  C8_health_tip.2 "unrecognized" (by decide)

end Indoorapp
